import Mathlib

/-!
# Channel & Customer Group Report — verification of the core engine

A shallow embedding of `app.py`: the metric extractor (`load_sheet` with the
`parse_percent` / `parse_number` transforms), the hierarchy builder
(`build_channel_to_customers`), the row precomputation and assembly
(`build_rows_dict`, `build_row`, the row loop), and the two renderers
(on-screen formatting via `fmt_pct`, export cell loop).

Conventions of the embedding:
* Spreadsheet cell values are `RawVal`: a missing value (`na`, pandas `NaN`),
  a text cell (list of characters), or a numeric cell (an exact rational —
  the idealisation of the Python float).
* Python dicts are association lists with Python's `d[k] = v` update
  semantics (`dinsert`: replace in place, else append) and `d.get` lookup.
* Python `float(...)` on a string is modelled by `parseFloat`, a parser for
  plain decimal numerals (optional sign, digits, optional point); a parse
  failure is the `ParseFailure` error.  `round(x, n)` is Python's
  round-half-to-even, modelled exactly on rationals.
* `row[col]` on a pandas row raises `KeyError` exactly when `col` is not a
  column of the frame; this is the `MissingColumn` error.
-/

/-- A raw spreadsheet cell value: missing (`NaN`), text, or numeric. -/
inductive RawVal where
  | na : RawVal
  | str : List Char → RawVal
  | num : ℚ → RawVal
  deriving DecidableEq, Repr

/-- Error conditions of the extraction layer: a `KeyError` on a missing
column, or a `ValueError` from `float(...)` on unparseable text. -/
inductive Err where
  | missingColumn : Err
  | parseFailure : Err
  deriving DecidableEq, Repr

/-! ## Python dict as an association list -/

/-- Python `d[k] = v`: replace the binding in place if `k` is present
(keeping its position), otherwise append a new binding. -/
def dinsert {K V : Type} [DecidableEq K] : List (K × V) → K → V → List (K × V)
  | [], k, v => [(k, v)]
  | (k', v') :: t, k, v =>
      if k' = k then (k, v) :: t else (k', v') :: dinsert t k v

/-- Lookup in an association list: the value of the first binding for `k`. -/
def hGet {K V : Type} [DecidableEq K] (d : List (K × V)) (k : K) : Option V :=
  (d.find? (fun p => p.1 = k)).map (fun p => p.2)

/-! ## Decimal numerals: Python `float(...)` on plain decimal strings -/

/-- Numeric value of a digit character. -/
def digitVal (c : Char) : ℕ := c.toNat - 48

/-- Value of a digit string read most-significant first. -/
def natVal (l : List Char) : ℕ := l.foldl (fun a c => 10 * a + digitVal c) 0

/-- Value of a fractional digit string (the part after the point). -/
def fracVal (l : List Char) : ℚ := (natVal l : ℚ) / 10 ^ l.length

/-- Parse an unsigned decimal numeral: digits, optionally followed by a
point and more digits, at least one digit in total. -/
def parseUnsigned (l : List Char) : Option ℚ :=
  match l.span (·.isDigit) with
  | (ds, []) => if ds.isEmpty then none else some ((natVal ds : ℚ))
  | (ds, '.' :: rest) =>
      if rest.all (·.isDigit) && (!ds.isEmpty || !rest.isEmpty) then
        some ((natVal ds : ℚ) + fracVal rest)
      else none
  | _ => none

/-- Python `float(s)` restricted to plain decimal numerals with an optional
sign; `none` models the `ValueError`. -/
def parseFloat (l : List Char) : Option ℚ :=
  match l with
  | [] => none
  | c :: t =>
      if c = '-' then (parseUnsigned t).map (fun q => -q)
      else if c = '+' then parseUnsigned t
      else parseUnsigned (c :: t)

/-! ## Python rounding -/

/-- Round to the nearest integer, ties to the even integer — Python's
`round` on an exact value. -/
def roundHalfEven (q : ℚ) : ℤ :=
  if q - ⌊q⌋ < 1/2 then ⌊q⌋
  else if 1/2 < q - ⌊q⌋ then ⌊q⌋ + 1
  else if ⌊q⌋ % 2 = 0 then ⌊q⌋ else ⌊q⌋ + 1

/-- Python `round(q, 1)`. -/
def pyRound1 (q : ℚ) : ℚ := (roundHalfEven (q * 10) : ℚ) / 10

/-- Python `round(q, 0)`. -/
def pyRound0 (q : ℚ) : ℚ := (roundHalfEven q : ℚ)

/-! ## The two value transforms (`parse_percent`, `parse_number`) -/

/-- `parse_percent` from `app.py`: `NaN ↦ None`; a text cell has every `"%"`
removed and every `","` turned into `"."`, is parsed as a float and rounded
to 1 decimal; a numeric cell is taken as a fraction, multiplied by 100 and
rounded to 1 decimal. -/
def parse_percent (val : RawVal) : Except Err (Option ℚ) :=
  match val with
  | .na => .ok none
  | .str s =>
      match parseFloat ((s.filter (· ≠ '%')).map (fun c => if c = ',' then '.' else c)) with
      | some q => .ok (some (pyRound1 q))
      | none => .error .parseFailure
  | .num q => .ok (some (pyRound1 (q * 100)))

/-- `parse_number` from `app.py`: `NaN ↦ None`; otherwise `round(float(val), 0)`. -/
def parse_number (val : RawVal) : Except Err (Option ℚ) :=
  match val with
  | .na => .ok none
  | .str s =>
      match parseFloat s with
      | some q => .ok (some (pyRound0 q))
      | none => .error .parseFailure
  | .num q => .ok (some (pyRound0 q))

/-! ## The metric extractor (`load_sheet`) -/

/-- A parsed sheet: the column schema and the data rows (cells aligned with
the schema).  `skiprows` acts before parsing, so it is part of producing
this structure, not of the extraction loop. -/
structure Sheet where
  cols : List String
  rows : List (List RawVal)

/-- `row[col]` on a pandas row: the cell if `col` is a column of the frame,
a `KeyError` (`MissingColumn`) otherwise. -/
def rowGet (cols : List String) (r : List RawVal) (c : String) : Except Err RawVal :=
  if c ∈ cols then .ok (r.getD (cols.findIdx (· = c)) .na)
  else .error .missingColumn

/-- `load_sheet` from `app.py`: iterate the rows, read the key and value
cell of each, apply the parser, and store `d[key] = val`.  The `_parser`
argument is supplied at every call site of the script, so it is modelled as
mandatory. -/
def load_sheet (s : Sheet) (key_col val_col : String)
    (parser : RawVal → Except Err (Option ℚ)) :
    Except Err (List (RawVal × Option ℚ)) :=
  s.rows.foldlM (fun d r => do
    let key ← rowGet s.cols r key_col
    let val ← rowGet s.cols r val_col
    let v ← parser val
    pure (dinsert d key v)) []

/-! ## The hierarchy builder (`build_channel_to_customers`) -/

/-- Distinct elements in order of first appearance, skipping any element
already seen — pandas `unique()`. -/
def uniqueFirstAux {α : Type} [DecidableEq α] (seen : List α) : List α → List α
  | [] => []
  | a :: t => if a ∈ seen then uniqueFirstAux seen t
              else a :: uniqueFirstAux (a :: seen) t

/-- Keep the first occurrence of every element, in order. -/
def uniqueFirst {α : Type} [DecidableEq α] (l : List α) : List α :=
  uniqueFirstAux [] l

/-- `str(c) if pd.notna(c) else "Data Kosong"`: the child cell rendered as a
string, with the sentinel for a missing value. -/
def substChild (c : RawVal) : String :=
  match c with
  | .na => "Data Kosong"
  | .str s => String.mk s
  | .num q => toString q

/-- Code-point lexicographic order on character lists — Python string
comparison, the order `groupby` sorts its keys in. -/
def strLeCh : List Char → List Char → Bool
  | [], _ => true
  | _ :: _, [] => false
  | a :: as, b :: bs =>
      if a.toNat < b.toNat then true
      else if b.toNat < a.toNat then false
      else strLeCh as bs

/-- Lexicographic order on strings by code point. -/
def strLe (a b : String) : Bool := strLeCh a.data b.data

/-- Insert a string into a list sorted by `strLe`, keeping it sorted. -/
def sortInsert (x : String) : List String → List String
  | [] => [x]
  | y :: t => if strLe x y then x :: y :: t else y :: sortInsert x t

/-- Insertion sort by `strLe`. -/
def sortStrings (l : List String) : List String := l.foldr sortInsert []

/-- `build_channel_to_customers` from `app.py`: group the master rows by the
channel column (pandas `groupby` iterates the distinct keys in sorted
order), and map each channel to the distinct child values of its rows in
order of first appearance, rendered through `substChild`.  The master table
is given as its (channel, customer) column pair. -/
def build_channel_to_customers (df : List (String × RawVal)) :
    List (String × List String) :=
  (sortStrings (uniqueFirst (df.map (·.1)))).map (fun ch =>
    (ch, (uniqueFirst ((df.filter (·.1 = ch)).map (·.2))).map substChild))

/-! ## Metric bundles and row precomputation -/

/-- A metric bundle: the eight per-entity mappings of one workbook, at the
entity-key (string label) layer used by row assembly. -/
structure MetricsDict where
  cont : List (String × Option ℚ)
  mtd : List (String × Option ℚ)
  ytd : List (String × Option ℚ)
  g_mtd : List (String × Option ℚ)
  g_l3m : List (String × Option ℚ)
  g_ytd : List (String × Option ℚ)
  a_mtd : List (String × Option ℚ)
  a_ytd : List (String × Option ℚ)

/-- Python `d.get(k)`: `None` both when the key is absent and when the
stored value is `None`. -/
def pyGet (d : List (String × Option ℚ)) (k : String) : Option ℚ :=
  (hGet d k).join

/-- `build_rows_dict` from `app.py`: one precomputed 8-value row per key of
the `"mtd"` mapping; each field is fetched independently with `.get` and
`None` is replaced by `0`. -/
def build_rows_dict (m : MetricsDict) : List (String × List ℚ) :=
  (m.mtd.map (·.1)).map (fun key =>
    (key, [pyGet m.cont key, pyGet m.mtd key, pyGet m.ytd key,
           pyGet m.g_mtd key, pyGet m.g_l3m key, pyGet m.g_ytd key,
           pyGet m.a_mtd key, pyGet m.a_ytd key].map (fun v => v.getD 0)))

/-! ## Row assembly -/

/-- `build_row` from `app.py`: the label, indented by four spaces when
requested, paired with the precomputed values, defaulting to eight zeros
when the label has no precomputed row. -/
def build_row (label : String) (rows_dict : List (String × List ℚ))
    (indent : Bool) : String × List ℚ :=
  ((if indent then "    " ++ label else label),
   (hGet rows_dict label).getD (List.replicate 8 0))

/-- The row loop of `app.py`: the grand-total row, then for each selected
channel its row followed by the rows of the selected customers that the
hierarchy places under that channel. -/
def assemble_rows (channel_rows customer_rows : List (String × List ℚ))
    (hier : List (String × List String)) (sel_ch sel_cust : List String) :
    List (String × List ℚ) :=
  build_row "GRAND TOTAL" channel_rows false ::
    sel_ch.flatMap (fun ch =>
      build_row ch channel_rows false ::
        (sel_cust.filter (fun c => decide (c ∈ (hGet hier ch).getD []))).map
          (fun c => build_row c customer_rows true))

/-! ## On-screen rendering -/

/-- The digit characters of `n`, most significant first. -/
def natDigits (n : ℕ) : List Char :=
  if h : n < 10 then [Nat.digitChar n]
  else natDigits (n / 10) ++ [Nat.digitChar (n % 10)]
termination_by n
decreasing_by
  exact Nat.div_lt_self (Nat.lt_of_lt_of_le (by norm_num) (Nat.le_of_not_lt h)) (by norm_num)

/-- Python `f"{q:.1f}"`: round half-to-even to one decimal and print with
exactly one digit after the point (a negative value that rounds to zero
keeps its sign, as the float format does). -/
def fmtFixed1 (q : ℚ) : List Char :=
  let n := roundHalfEven (q * 10)
  (if q < 0 then ['-'] else []) ++
    natDigits (n.natAbs / 10) ++ ['.'] ++ [Nat.digitChar (n.natAbs % 10)]

/-- `fmt_pct` from `app.py`: `f"{x:.1f}%"` for a present value, `"0%"` for
`None`/`NaN`. -/
def fmt_pct (x : Option ℚ) : String :=
  match x with
  | some q => String.mk (fmtFixed1 q) ++ "%"
  | none => "0%"

/-- A cell of the on-screen table: a formatted string or a bare number. -/
inductive Cell where
  | strC : String → Cell
  | numC : ℚ → Cell
  deriving DecidableEq, Repr

/-- One display row: the label, then the eight values with `fmt_pct` applied
to the six percentage columns (value indices 0 and 3–7) and the two
magnitude columns (indices 1, 2) left numeric. -/
def display_row (r : String × List ℚ) : List Cell :=
  Cell.strC r.1 :: r.2.enum.map (fun jv =>
    if jv.1 = 0 ∨ 3 ≤ jv.1 then Cell.strC (fmt_pct (some jv.2))
    else Cell.numC jv.2)

/-- The on-screen table of `app.py` (`display_df` after the `fmt_pct` column
maps). -/
def display_table (rows : List (String × List ℚ)) : List (List Cell) :=
  rows.map display_row

/-! ## Export rendering -/

/-- The cell formats of the export worksheet. -/
inductive XFmt where
  | bold : XFmt
  | ind : XFmt
  | num : XFmt
  | pct_g : XFmt
  | pct_r : XFmt
  deriving DecidableEq, Repr

/-- Python `v or 0` on a number: `0` stays `0`, anything else is itself. -/
def pyOr0 (v : ℚ) : ℚ := if v = 0 then 0 else v

/-- The inner loop of the export writer: percentage columns (value indices 0
and 3–7) are written as `v/100` with the green format when `v ≥ 0` and the
red one otherwise; magnitude columns are written as `v or 0` with the plain
number format. -/
def export_cells (vals : List ℚ) : List (ℚ × XFmt) :=
  vals.enum.map (fun jv =>
    if jv.1 = 0 ∨ 3 ≤ jv.1 then
      (jv.2 / 100, if 0 ≤ jv.2 then XFmt.pct_g else XFmt.pct_r)
    else (pyOr0 jv.2, XFmt.num))

/-- Python `s.strip()`: remove leading and trailing whitespace. -/
def pyStrip (s : String) : String :=
  String.mk (((s.data.dropWhile Char.isWhitespace).reverse.dropWhile
      Char.isWhitespace).reverse)

/-- Python `s.startswith("    ")`: the label carries the four-space
indentation marker. -/
def hasIndentMarker (s : String) : Bool :=
  match s.data with
  | ' ' :: ' ' :: ' ' :: ' ' :: _ => true
  | _ => false

/-- One exported row: the stripped label with the indented or bold style
according to the four-space marker, and the formatted value cells. -/
def export_row (r : String × List ℚ) : (String × XFmt) × List (ℚ × XFmt) :=
  ((pyStrip r.1, if hasIndentMarker r.1 then XFmt.ind else XFmt.bold),
   export_cells r.2)

/-- The data-row region of the exported worksheet. -/
def export_table (rows : List (String × List ℚ)) :
    List ((String × XFmt) × List (ℚ × XFmt)) :=
  rows.map export_row

/-- One full render pass: assemble the rows from the bundles, hierarchy and
filter selection, and produce both output surfaces. -/
def render_report (channel_rows customer_rows : List (String × List ℚ))
    (hier : List (String × List String)) (sel_ch sel_cust : List String) :
    List (List Cell) × List ((String × XFmt) × List (ℚ × XFmt)) :=
  (display_table (assemble_rows channel_rows customer_rows hier sel_ch sel_cust),
   export_table (assemble_rows channel_rows customer_rows hier sel_ch sel_cust))

/-! ## Association-list (Python dict) lemmas -/

theorem hGet_nil {K V : Type} [DecidableEq K] (k : K) :
    hGet ([] : List (K × V)) k = none := rfl

theorem hGet_cons {K V : Type} [DecidableEq K] (a : K × V) (t : List (K × V))
    (k : K) : hGet (a :: t) k = if a.1 = k then some a.2 else hGet t k := by
  by_cases h : a.1 = k
  · simp [hGet, List.find?_cons_of_pos, h]
  · simp [hGet, List.find?_cons_of_neg, h]

theorem hGet_append {K V : Type} [DecidableEq K] (l₁ l₂ : List (K × V))
    (k : K) : hGet (l₁ ++ l₂) k = (hGet l₁ k).or (hGet l₂ k) := by
  induction l₁ with
  | nil => simp [hGet_nil, Option.or]
  | cons a t ih =>
      by_cases h : a.1 = k <;> simp [hGet_cons, h, ih, Option.or]

theorem hGet_dinsert {K V : Type} [DecidableEq K] (d : List (K × V)) (k : K)
    (v : V) (x : K) :
    hGet (dinsert d k v) x = if k = x then some v else hGet d x := by
  induction d with
  | nil => simp [dinsert, hGet_cons, hGet_nil]
  | cons a t ih =>
      by_cases h1 : a.1 = k
      · by_cases h2 : k = x <;> simp [dinsert, h1, hGet_cons, h2]
      · by_cases h2 : k = x <;> by_cases h3 : a.1 = x <;>
          simp_all [dinsert, hGet_cons, h1, ih]

theorem hGet_map_pair {K V : Type} [DecidableEq K] (f : K → V)
    (keys : List K) (x : K) :
    hGet (keys.map (fun k => (k, f k))) x =
      if x ∈ keys then some (f x) else none := by
  induction keys with
  | nil => simp [hGet_nil]
  | cons a t ih =>
      by_cases h : a = x <;> simp [hGet_cons, h, ih]
      simp [Ne.symm h]

/-! ## `uniqueFirst` and `sortStrings` lemmas -/

theorem mem_uniqueFirstAux {α : Type} [DecidableEq α] (l : List α) :
    ∀ (seen : List α) (x : α),
      x ∈ uniqueFirstAux seen l ↔ x ∈ l ∧ x ∉ seen := by
  induction l with
  | nil => simp [uniqueFirstAux]
  | cons a t ih =>
      intro seen x
      by_cases h : a ∈ seen
      · rw [uniqueFirstAux, if_pos h, ih]
        simp only [List.mem_cons]
        constructor
        · rintro ⟨hx, hs⟩; exact ⟨Or.inr hx, hs⟩
        · rintro ⟨rfl | hx, hs⟩
          · exact absurd h hs
          · exact ⟨hx, hs⟩
      · rw [uniqueFirstAux, if_neg h]
        simp only [List.mem_cons, ih, List.mem_cons]
        constructor
        · rintro (rfl | ⟨hx, hs⟩)
          · exact ⟨Or.inl rfl, h⟩
          · exact ⟨Or.inr hx, fun hxs => hs (Or.inr hxs)⟩
        · rintro ⟨rfl | hx, hs⟩
          · exact Or.inl rfl
          · by_cases hxa : x = a
            · exact Or.inl hxa
            · exact Or.inr ⟨hx, fun hxs => (hxs.elim hxa hs)⟩

theorem mem_uniqueFirst {α : Type} [DecidableEq α] (l : List α) (x : α) :
    x ∈ uniqueFirst l ↔ x ∈ l := by
  simp [uniqueFirst, mem_uniqueFirstAux]

theorem mem_sortInsert (a x : String) (l : List String) :
    x ∈ sortInsert a l ↔ x = a ∨ x ∈ l := by
  induction l with
  | nil => simp [sortInsert]
  | cons y t ih =>
      rw [sortInsert]
      split
      · simp [List.mem_cons]
      · simp only [List.mem_cons, ih]
        tauto

theorem mem_sortStrings (l : List String) (x : String) :
    x ∈ sortStrings l ↔ x ∈ l := by
  induction l with
  | nil => simp [sortStrings]
  | cons a t ih =>
      show x ∈ sortInsert a (sortStrings t) ↔ _
      rw [mem_sortInsert, ih, List.mem_cons]

/-! ## C3 — hierarchy builder -/

/-- **C3** (counterexample): the children of a parent are kept in order of
first appearance, not sorted lexicographically ascending — a master table
whose rows give children "b" then "a" under parent "A" yields the child
list `["b", "a"]`, which is not ascending. -/
theorem hierarchy_sorted_cex :
    hGet (build_channel_to_customers
        [("A", RawVal.str ['b']), ("A", RawVal.str ['a'])]) "A"
      = some ["b", "a"]
    ∧ ¬ List.Pairwise (fun a b => strLe a b = true) ["b", "a"] :=
  ⟨by decide, by decide⟩

/-- **C3** (amended): for every master table, a parent has an entry in the
hierarchy iff it occurs in the parent column, and a child `c` is in
`hierarchy[p]` iff at least one master row has parent-column `p` and
child-column `c` after sentinel substitution; the children are the distinct
substituted values in order of first appearance (not sorted). -/
theorem hierarchy_membership (df : List (String × RawVal)) (p : String) :
    ((∃ cs, hGet (build_channel_to_customers df) p = some cs) ↔
        p ∈ df.map (·.1))
    ∧ ∀ cs, hGet (build_channel_to_customers df) p = some cs →
        ∀ c, c ∈ cs ↔ ∃ r ∈ df, r.1 = p ∧ substChild r.2 = c := by
  have hkeys : p ∈ sortStrings (uniqueFirst (df.map (·.1))) ↔
      p ∈ df.map (·.1) := by
    rw [mem_sortStrings, mem_uniqueFirst]
  have hget := hGet_map_pair
    (fun ch => (uniqueFirst ((df.filter (·.1 = ch)).map (·.2))).map substChild)
    (sortStrings (uniqueFirst (df.map (·.1)))) p
  constructor
  · rw [build_channel_to_customers, hget]
    by_cases hp : p ∈ sortStrings (uniqueFirst (df.map (·.1))) <;>
      simp [hp, hkeys.symm]
  · intro cs hcs c
    rw [build_channel_to_customers, hget] at hcs
    by_cases hp : p ∈ sortStrings (uniqueFirst (df.map (·.1)))
    · rw [if_pos hp] at hcs
      cases hcs
      simp only [List.mem_map, mem_uniqueFirst, List.mem_filter,
        decide_eq_true_eq]
      constructor
      · rintro ⟨raw, ⟨r, ⟨hr, hr1⟩, rfl⟩, rfl⟩
        exact ⟨r, hr, hr1, rfl⟩
      · rintro ⟨r, hr, hr1, rfl⟩
        exact ⟨r.2, ⟨r, ⟨hr, hr1⟩, rfl⟩, rfl⟩
    · rw [if_neg hp] at hcs
      cases hcs

/-! ## C1 — row assembly shape -/

/-- **C1**: the assembled sequence always begins with the grand-total row —
label "GRAND TOTAL", values resolved in the channel bundle under that key,
eight zeros when the key is absent — and then, for every selected parent in
selection order, a parent row valued from the channel bundle followed by
exactly the selected children listed by the hierarchy under that parent, in
selection order, indented and valued from the customer bundle; a child row
appears under a parent iff the child is selected and in `hierarchy[parent]`. -/
theorem assemble_rows_spec (ch cu : List (String × List ℚ))
    (hier : List (String × List String)) (sp sc : List String) :
    (assemble_rows ch cu hier sp sc).head? =
      some ("GRAND TOTAL", (hGet ch "GRAND TOTAL").getD (List.replicate 8 0))
    ∧ assemble_rows ch cu hier sp sc =
        ("GRAND TOTAL", (hGet ch "GRAND TOTAL").getD (List.replicate 8 0)) ::
          sp.flatMap (fun p =>
            (p, (hGet ch p).getD (List.replicate 8 0)) ::
              (sc.filter (fun c => decide (c ∈ (hGet hier p).getD []))).map
                (fun c => ("    " ++ c, (hGet cu c).getD (List.replicate 8 0))))
    ∧ ∀ p c, c ∈ sc.filter (fun c' => decide (c' ∈ (hGet hier p).getD [])) ↔
        (c ∈ (hGet hier p).getD [] ∧ c ∈ sc) := by
  refine ⟨rfl, rfl, fun p c => ?_⟩
  rw [List.mem_filter]
  simp only [decide_eq_true_eq]
  exact and_comm

/-! ## C2 — per-field zero default at assembly -/

/-- **C2** (counterexample): a label present in the `"cont"` mapping with a
nonzero value but absent from `"mtd"` assembles to the all-zero row — the
present contribution value is not kept, contradicting the claim that fields
present in their mappings keep their values. -/
theorem build_row_fields_cex :
    pyGet (MetricsDict.mk [("X", some (5:ℚ))] [] [] [] [] [] [] []).cont "X"
      = some 5
    ∧ (build_row "X"
        (build_rows_dict (MetricsDict.mk [("X", some (5:ℚ))] [] [] [] [] [] [] []))
        false).2 = List.replicate 8 0
    ∧ (5:ℚ) ≠ 0 := by
  refine ⟨?_, rfl, by norm_num⟩
  simp [pyGet, hGet_cons, Option.join]

/-- Membership in a list of key-indexed pairs. -/
theorem pair_mem_map_pair {K V : Type} (f : K → V) (keys : List K) (x : K)
    (v : V) : (x, v) ∈ keys.map (fun k => (k, f k)) ↔ x ∈ keys ∧ v = f x := by
  constructor
  · intro h
    rcases List.mem_map.mp h with ⟨a, ha, hav⟩
    rw [Prod.mk.injEq] at hav
    rcases hav with ⟨rfl, rfl⟩
    exact ⟨ha, rfl⟩
  · rintro ⟨hx, rfl⟩
    exact List.mem_map.mpr ⟨x, hx, rfl⟩

/-- The precomputed row lookup, characterised: a label in the `"mtd"` key
set maps to its eight independently resolved fields, any other label has no
entry. -/
theorem hGet_build_rows_dict (m : MetricsDict) (label : String) :
    hGet (build_rows_dict m) label =
      if label ∈ m.mtd.map (·.1) then
        some [(pyGet m.cont label).getD 0, (pyGet m.mtd label).getD 0,
              (pyGet m.ytd label).getD 0, (pyGet m.g_mtd label).getD 0,
              (pyGet m.g_l3m label).getD 0, (pyGet m.g_ytd label).getD 0,
              (pyGet m.a_mtd label).getD 0, (pyGet m.a_ytd label).getD 0]
      else none := by
  have h := hGet_map_pair (fun key =>
      [pyGet m.cont key, pyGet m.mtd key, pyGet m.ytd key, pyGet m.g_mtd key,
       pyGet m.g_l3m key, pyGet m.g_ytd key, pyGet m.a_mtd key,
       pyGet m.a_ytd key].map (fun v => v.getD 0)) (m.mtd.map (·.1)) label
  rw [build_rows_dict, h]
  split <;> simp

/-- **C2** (amended): at assembly time, a label present in the `"mtd"`
mapping gets each of its eight fields resolved independently — a field
missing from its own per-metric mapping (or stored as `None`) becomes 0
while present fields keep their values; a label absent from `"mtd"` gets
the all-zero row regardless of the other seven mappings; rows are never
dropped. -/
theorem build_row_fields (m : MetricsDict) (label : String) (indent : Bool) :
    (label ∈ m.mtd.map (·.1) →
      (build_row label (build_rows_dict m) indent).2 =
        [(pyGet m.cont label).getD 0, (pyGet m.mtd label).getD 0,
         (pyGet m.ytd label).getD 0, (pyGet m.g_mtd label).getD 0,
         (pyGet m.g_l3m label).getD 0, (pyGet m.g_ytd label).getD 0,
         (pyGet m.a_mtd label).getD 0, (pyGet m.a_ytd label).getD 0])
    ∧ (label ∉ m.mtd.map (·.1) →
      (build_row label (build_rows_dict m) indent).2 = List.replicate 8 0) := by
  have h := hGet_build_rows_dict m label
  constructor <;> intro hm <;> simp [build_row, h, hm]

/-- Witness for the amended C2 theorem at a concrete bundle: label "A" is
in `"mtd"` with value 2 and in no other mapping, and its assembled fields
are `[0, 2, 0, 0, 0, 0, 0, 0]`. -/
theorem build_row_fields_witness :
    (build_row "A"
      (build_rows_dict (MetricsDict.mk [] [("A", some (2:ℚ))] [] [] [] [] [] []))
      false).2 = [0, 2, 0, 0, 0, 0, 0, 0] := by
  have h := (build_row_fields
      (MetricsDict.mk [] [("A", some (2:ℚ))] [] [] [] [] [] []) "A" false).1
      (by simp)
  rw [h]
  simp [pyGet, hGet_cons, hGet_nil, Option.join]

/-! ## C9 — the `"mtd"` key set gates the precomputed rows -/

/-- **C9**: the precomputed row table has exactly the key set of the
`"mtd"` mapping, and a key absent from `"mtd"` resolves at assembly to the
all-zero default row, discarding whatever the other seven mappings hold for
it. -/
theorem rows_dict_keyset (m : MetricsDict) (key : String) :
    ((∃ v, (key, v) ∈ build_rows_dict m) ↔ key ∈ m.mtd.map (·.1))
    ∧ (key ∉ m.mtd.map (·.1) → ∀ indent,
        build_row key (build_rows_dict m) indent =
          ((if indent then "    " ++ key else key), List.replicate 8 0)) := by
  constructor
  · rw [build_rows_dict]
    constructor
    · rintro ⟨v, hv⟩
      exact ((pair_mem_map_pair _ _ _ _).mp hv).1
    · intro hk
      exact ⟨_, (pair_mem_map_pair _ _ _ _).mpr ⟨hk, rfl⟩⟩
  · intro hk indent
    have h := hGet_build_rows_dict m key
    simp [build_row, h, hk]

/-- Witness for C9 at a concrete bundle: "Y" has a contribution value but
no `"mtd"` entry, so its assembled row is the indented label with eight
zeros — the contribution value 3 is discarded. -/
theorem rows_dict_keyset_witness :
    build_row "Y"
      (build_rows_dict (MetricsDict.mk [("Y", some (3:ℚ))] [] [] [] [] [] [] []))
      true = ("    " ++ "Y", List.replicate 8 0) := by
  have h := (rows_dict_keyset
      (MetricsDict.mk [("Y", some (3:ℚ))] [] [] [] [] [] [] []) "Y").2
      (by simp) true
  simpa using h

/-! ## C10 — determinism of assembly and rendering -/

/-- **C10**: row assembly and rendering are deterministic — two runs on
equal metric bundles, hierarchy and filter selection produce identical
display tables and identical export cells; the outputs depend on nothing
else. -/
theorem render_report_deterministic
    (ch₁ ch₂ cu₁ cu₂ : List (String × List ℚ))
    (h₁ h₂ : List (String × List String)) (sp₁ sp₂ sc₁ sc₂ : List String)
    (hch : ch₁ = ch₂) (hcu : cu₁ = cu₂) (hh : h₁ = h₂) (hsp : sp₁ = sp₂)
    (hsc : sc₁ = sc₂) :
    render_report ch₁ cu₁ h₁ sp₁ sc₁ = render_report ch₂ cu₂ h₂ sp₂ sc₂ := by
  subst hch hcu hh hsp hsc; rfl

/-- Witness for C10 at a concrete input. -/
theorem render_report_deterministic_witness :
    render_report [("GRAND TOTAL", [1, 2, 3, 4, 5, 6, 7, 8])] []
        [("A", ["B"])] ["A"] ["B"]
      = render_report [("GRAND TOTAL", [1, 2, 3, 4, 5, 6, 7, 8])] []
        [("A", ["B"])] ["A"] ["B"] :=
  render_report_deterministic _ _ _ _ _ _ _ _ _ _ rfl rfl rfl rfl rfl

/-! ## C5 / C6 — extraction loop lemmas -/

/-- The work done by one iteration of the `load_sheet` loop, without the
dict update: the key cell and the parsed value cell of one row. -/
def rowEntry (s : Sheet) (key_col val_col : String)
    (parser : RawVal → Except Err (Option ℚ)) (r : List RawVal) :
    Except Err (RawVal × Option ℚ) := do
  let key ← rowGet s.cols r key_col
  let val ← rowGet s.cols r val_col
  let v ← parser val
  pure (key, v)

/-- The (key, parsed value) pairs of the sheet's rows, in row order. -/
def rowPairs (s : Sheet) (key_col val_col : String)
    (parser : RawVal → Except Err (Option ℚ)) : List (RawVal × Option ℚ) :=
  s.rows.filterMap (fun r => (rowEntry s key_col val_col parser r).toOption)

/-- One loop step of `load_sheet`, rephrased through `rowEntry`. -/
theorem load_sheet_step (s : Sheet) (kc vc : String)
    (p : RawVal → Except Err (Option ℚ)) (d0 : List (RawVal × Option ℚ))
    (r : List RawVal) :
    (do
      let key ← rowGet s.cols r kc
      let val ← rowGet s.cols r vc
      let v ← p val
      pure (dinsert d0 key v) : Except Err (List (RawVal × Option ℚ))) =
    match rowEntry s kc vc p r with
    | .ok kv => .ok (dinsert d0 kv.1 kv.2)
    | .error e => .error e := by
  rw [rowEntry]
  cases hk : rowGet s.cols r kc <;>
    cases hv : rowGet s.cols r vc <;>
    simp [hk, hv, Bind.bind, Except.bind] <;>
    cases hp : p _ <;> simp [hp, Pure.pure, Except.pure]

/-- Invariant of the `load_sheet` fold: on success, the lookup of any key in
the accumulated dict is the value of the last row carrying that key, else
whatever the initial dict held. -/
theorem load_sheet_fold (s : Sheet) (kc vc : String)
    (p : RawVal → Except Err (Option ℚ)) :
    ∀ (rows : List (List RawVal)) (d0 d : List (RawVal × Option ℚ)),
      rows.foldlM (fun d r => do
        let key ← rowGet s.cols r kc
        let val ← rowGet s.cols r vc
        let v ← p val
        pure (dinsert d key v)) d0 = .ok d →
      ∀ k, hGet d k =
        (hGet (rows.filterMap
            (fun r => (rowEntry s kc vc p r).toOption)).reverse k).or
          (hGet d0 k) := by
  intro rows
  induction rows with
  | nil =>
      intro d0 d h k
      rw [List.foldlM_nil] at h
      cases h
      simp [hGet_nil, Option.or]
  | cons r rest ih =>
      intro d0 d h k
      rw [List.foldlM_cons, load_sheet_step] at h
      cases he : rowEntry s kc vc p r with
      | error e => rw [he] at h; simp [Bind.bind, Except.bind] at h
      | ok kv =>
          rw [he] at h
          simp only [Bind.bind, Except.bind] at h
          have hd := ih (dinsert d0 kv.1 kv.2) d h k
          rw [List.filterMap_cons, he]
          show hGet d k =
            (hGet ((kv :: List.filterMap _ rest).reverse) k).or (hGet d0 k)
          rw [List.reverse_cons, hGet_append]
          rw [hd, hGet_dinsert]
          cases hpr : hGet (List.filterMap
              (fun r => (rowEntry s kc vc p r).toOption) rest).reverse k <;>
            by_cases hk : kv.1 = k <;>
            simp [Option.or, hGet_cons, hGet_nil, hk]

/-- **C5** (amended): rows whose key cell is missing are *not* skipped —
the missing key becomes a dict entry like any other — and for every key,
repeated or not, the value of the last row carrying it wins.  `hGet` of the
result equals `hGet` of the reversed row-pair list: the last matching row's
value. -/
theorem load_sheet_last_wins (s : Sheet) (kc vc : String)
    (p : RawVal → Except Err (Option ℚ)) (d : List (RawVal × Option ℚ))
    (h : load_sheet s kc vc p = .ok d) (k : RawVal) :
    hGet d k = hGet (rowPairs s kc vc p).reverse k := by
  have hf := load_sheet_fold s kc vc p s.rows [] d h k
  rw [rowPairs]
  rw [hf, hGet_nil]
  cases hGet (List.filterMap
      (fun r => (rowEntry s kc vc p r).toOption) s.rows).reverse k <;>
    simp [Option.or]

/-- **C5** (counterexample): a row whose key cell is missing (`NaN`) is not
skipped — its missing key becomes an entry of the resulting mapping. -/
theorem load_sheet_skip_missing_cex :
    load_sheet ⟨["K", "V"], [[RawVal.na, RawVal.na]]⟩ "K" "V" parse_number
      = .ok [(RawVal.na, none)]
    ∧ hGet [(RawVal.na, (none : Option ℚ))] RawVal.na = some none :=
  ⟨rfl, rfl⟩

/-- Witness for the amended C5 theorem: a sheet with two rows for the same
key "a"; the resulting dict resolves "a" to the last row's value. -/
theorem load_sheet_last_wins_witness :
    load_sheet ⟨["K", "V"], [[RawVal.str ['a'], RawVal.na],
        [RawVal.str ['a'], RawVal.num 0]]⟩ "K" "V"
      (fun v => match v with
        | RawVal.na => Except.ok none
        | _ => Except.ok (some 1))
      = Except.ok [(RawVal.str ['a'], some 1)]
    ∧ hGet [(RawVal.str ['a'], (some (1:ℚ) : Option ℚ))] (RawVal.str ['a'])
      = hGet (rowPairs ⟨["K", "V"], [[RawVal.str ['a'], RawVal.na],
          [RawVal.str ['a'], RawVal.num 0]]⟩ "K" "V"
        (fun v => match v with
          | RawVal.na => Except.ok none
          | _ => Except.ok (some 1))).reverse (RawVal.str ['a']) := by
  refine ⟨rfl, ?_⟩
  exact load_sheet_last_wins
    ⟨["K", "V"], [[RawVal.str ['a'], RawVal.na], [RawVal.str ['a'], RawVal.num 0]]⟩
    "K" "V"
    (fun v => match v with
      | RawVal.na => Except.ok none
      | _ => Except.ok (some 1))
    [(RawVal.str ['a'], some 1)] rfl (RawVal.str ['a'])

theorem rowGet_missing {cols : List String} {r : List RawVal} {c : String}
    (h : c ∉ cols) : rowGet cols r c = .error .missingColumn := by
  rw [rowGet, if_neg h]

theorem rowGet_present {cols : List String} {r : List RawVal} {c : String}
    (h : c ∈ cols) :
    rowGet cols r c = .ok (r.getD (cols.findIdx (· = c)) .na) := by
  rw [rowGet, if_pos h]

theorem rowGet_error {cols : List String} {r : List RawVal} {c : String}
    {e : Err} (h : rowGet cols r c = .error e) : e = Err.missingColumn := by
  rw [rowGet] at h
  split at h
  · cases h
  · cases h; rfl

/-- A row whose key or value column is absent from the schema fails with
`MissingColumn`. -/
theorem rowEntry_missing {s : Sheet} {kc vc : String}
    {p : RawVal → Except Err (Option ℚ)} {r : List RawVal}
    (h : kc ∉ s.cols ∨ vc ∉ s.cols) :
    rowEntry s kc vc p r = .error .missingColumn := by
  rcases h with hm | hm
  · rw [rowEntry, rowGet_missing hm]
    simp [Bind.bind, Except.bind]
  · rw [rowEntry]
    cases hk : rowGet s.cols r kc with
    | error e =>
        have := rowGet_error hk
        subst this
        simp [hk, Bind.bind, Except.bind]
    | ok key => simp [hk, Bind.bind, Except.bind, rowGet_missing hm]

/-- With both columns present, a failing `rowEntry` can only fail through
the value parser. -/
theorem rowEntry_error_transform {s : Sheet} {kc vc : String}
    {p : RawVal → Except Err (Option ℚ)} {r : List RawVal} {e : Err}
    (hkc : kc ∈ s.cols) (hvc : vc ∈ s.cols)
    (h : rowEntry s kc vc p r = .error e) : ∃ v, p v = .error e := by
  rw [rowEntry, rowGet_present hkc] at h
  simp only [Bind.bind, Except.bind] at h
  rw [rowGet_present hvc] at h
  simp only [Pure.pure, Except.pure] at h
  cases hpv : p (r.getD (s.cols.findIdx (· = vc)) .na) with
  | ok v => rw [hpv] at h; simp at h
  | error e' =>
      rw [hpv] at h
      cases h
      exact ⟨_, hpv⟩

/-- With both columns present and a parser that never raises
`MissingColumn`, the extraction fold never raises it either. -/
theorem load_sheet_fold_no_missing (s : Sheet) (kc vc : String)
    (p : RawVal → Except Err (Option ℚ)) (hkc : kc ∈ s.cols)
    (hvc : vc ∈ s.cols) (hp : ∀ v, p v ≠ .error .missingColumn) :
    ∀ (rows : List (List RawVal)) (d0 : List (RawVal × Option ℚ)),
      rows.foldlM (fun d r => do
        let key ← rowGet s.cols r kc
        let val ← rowGet s.cols r vc
        let v ← p val
        pure (dinsert d key v)) d0 ≠ .error .missingColumn := by
  intro rows
  induction rows with
  | nil =>
      intro d0 h
      rw [List.foldlM_nil] at h
      simp [Pure.pure, Except.pure] at h
  | cons r rest ih =>
      intro d0 h
      rw [List.foldlM_cons, load_sheet_step] at h
      cases he : rowEntry s kc vc p r with
      | ok kv =>
          rw [he] at h
          simp only [Bind.bind, Except.bind] at h
          exact ih _ h
      | error e =>
          rw [he] at h
          simp only [Bind.bind, Except.bind] at h
          cases h
          obtain ⟨v, hv⟩ := rowEntry_error_transform hkc hvc he
          exact hp v hv

/-- **C6** (amended): a *non-empty* sheet lacking either configured column
fails with `MissingColumn` (detected while reading the first row), while a
sheet with zero data rows never fails regardless of its schema; and for a
sheet containing both columns, extraction never fails with `MissingColumn`
(the value transforms only raise `ParseFailure`). -/
theorem load_sheet_missing_column (s : Sheet) (kc vc : String)
    (p : RawVal → Except Err (Option ℚ)) :
    (s.rows ≠ [] → (kc ∉ s.cols ∨ vc ∉ s.cols) →
      load_sheet s kc vc p = .error .missingColumn)
    ∧ (kc ∈ s.cols → vc ∈ s.cols → (∀ v, p v ≠ .error .missingColumn) →
      load_sheet s kc vc p ≠ .error .missingColumn) := by
  constructor
  · intro hne hmiss
    obtain ⟨r, rest, hr⟩ : ∃ r rest, s.rows = r :: rest := by
      cases h : s.rows with
      | nil => exact absurd h hne
      | cons a t => exact ⟨a, t, rfl⟩
    rw [load_sheet, hr, List.foldlM_cons, load_sheet_step,
      rowEntry_missing hmiss]
    simp [Bind.bind, Except.bind]
  · intro hkc hvc hp
    rw [load_sheet]
    exact load_sheet_fold_no_missing s kc vc p hkc hvc hp s.rows []

/-- **C6** (counterexample): a sheet with zero data rows and neither
configured column in its schema extracts to an empty mapping without any
error — missing columns are not detected before rows are read, so the
claimed failure on empty sheets does not happen. -/
theorem load_sheet_missing_column_cex :
    load_sheet ⟨["A"], []⟩ "K" "V" parse_number = .ok []
    ∧ ("K" : String) ∉ (["A"] : List String)
    ∧ ("V" : String) ∉ (["A"] : List String) :=
  ⟨rfl, by decide, by decide⟩

/-- Witness for the amended C6 theorem at concrete sheets: a one-row sheet
lacking the key column fails with `MissingColumn`, and a one-row sheet with
both columns present does not. -/
theorem load_sheet_missing_column_witness :
    load_sheet ⟨["A"], [[RawVal.na]]⟩ "K" "V" parse_number
      = .error .missingColumn
    ∧ load_sheet ⟨["K", "V"], [[RawVal.na, RawVal.na]]⟩ "K" "V" parse_number
      ≠ .error .missingColumn := by
  constructor
  · exact (load_sheet_missing_column ⟨["A"], [[RawVal.na]]⟩ "K" "V"
      parse_number).1 (by simp) (Or.inl (by decide))
  · exact (load_sheet_missing_column ⟨["K", "V"], [[RawVal.na, RawVal.na]]⟩
      "K" "V" parse_number).2 (by decide) (by decide)
      (fun v => by cases v <;> simp [parse_number] <;> split <;> simp)

/-! ## C4 — the percent transform -/

/-- Replace every decimal comma by a decimal point. -/
def mapComma (l : List Char) : List Char :=
  l.map (fun c => if c = ',' then '.' else c)

/-- Strip one trailing `%`, as the spec reads the transform. -/
def stripTrailingPct (l : List Char) : List Char :=
  match l.reverse with
  | [] => l
  | c :: t => if c = '%' then t.reverse else l

/-- A successfully parsed unsigned numeral consists of digits and points. -/
theorem parseUnsigned_chars {l : List Char} {q : ℚ}
    (h : parseUnsigned l = some q) :
    ∀ c ∈ l, c.isDigit = true ∨ c = '.' := by
  intro c hc
  rw [parseUnsigned] at h
  have hl : l = l.takeWhile (·.isDigit) ++ l.dropWhile (·.isDigit) :=
    (List.takeWhile_append_dropWhile _ _).symm
  rw [List.span_eq_take_drop] at h
  split at h
  · next ds heq =>
      rw [Prod.mk.injEq] at heq
      have hctw : c ∈ l.takeWhile (·.isDigit) := by
        rw [hl, heq.2, List.append_nil] at hc
        exact heq.1 ▸ hc
      exact Or.inl (List.mem_takeWhile_imp hctw)
  · next ds rest heq =>
      rw [Prod.mk.injEq] at heq
      split at h
      · next hguard =>
          rw [Bool.and_eq_true] at hguard
          have hall := hguard.1
          rw [List.all_eq_true] at hall
          rw [hl, heq.2] at hc
          rcases List.mem_append.mp hc with hmem | hmem
          · exact Or.inl (List.mem_takeWhile_imp hmem)
          · rcases List.mem_cons.mp hmem with rfl | hmem
            · exact Or.inr rfl
            · exact Or.inl (hall c hmem)
      · cases h
  · cases h

/-- A successfully parsed float consists of digits, a point and signs. -/
theorem parseFloat_chars {l : List Char} {q : ℚ}
    (h : parseFloat l = some q) :
    ∀ c ∈ l, c.isDigit = true ∨ c = '.' ∨ c = '-' ∨ c = '+' := by
  intro c hc
  cases l with
  | nil => rw [parseFloat] at h; cases h
  | cons c0 t =>
      rw [parseFloat] at h
      by_cases h0 : c0 = '-'
      · rw [if_pos h0] at h
        rcases List.mem_cons.mp hc with rfl | hct
        · exact Or.inr (Or.inr (Or.inl h0))
        · obtain ⟨q', hq', _⟩ := Option.map_eq_some'.mp h
          rcases parseUnsigned_chars hq' c hct with hd | hd
          · exact Or.inl hd
          · exact Or.inr (Or.inl hd)
      · rw [if_neg h0] at h
        by_cases h1 : c0 = '+'
        · rw [if_pos h1] at h
          rcases List.mem_cons.mp hc with rfl | hct
          · exact Or.inr (Or.inr (Or.inr h1))
          · rcases parseUnsigned_chars h c hct with hd | hd
            · exact Or.inl hd
            · exact Or.inr (Or.inl hd)
        · rw [if_neg h1] at h
          rcases parseUnsigned_chars h c hc with hd | hd
          · exact Or.inl hd
          · exact Or.inr (Or.inl hd)

/-- A successfully parsed float contains no percent sign. -/
theorem parseFloat_no_pct {l : List Char} {q : ℚ}
    (h : parseFloat l = some q) : '%' ∉ l := by
  intro hmem
  rcases parseFloat_chars h '%' hmem with hd | hd | hd | hd <;>
    exact absurd hd (by decide)

/-- When the stripped text holds no percent sign, removing every `%` (the
code) and removing one trailing `%` (the spec) agree. -/
theorem filter_pct_of_strip {s : List Char}
    (hnp : '%' ∉ stripTrailingPct s) :
    s.filter (· ≠ '%') = stripTrailingPct s := by
  cases hr : s.reverse with
  | nil =>
      have hs : s = [] := by
        rw [← List.reverse_reverse s, hr]; rfl
      subst hs
      rfl
  | cons c t =>
      have hs : s = t.reverse ++ [c] := by
        rw [← List.reverse_reverse s, hr, List.reverse_cons]
      by_cases hc : c = '%'
      · subst hc
        have hstrip : stripTrailingPct s = t.reverse := by
          simp only [stripTrailingPct, hr, if_pos]
        rw [hstrip] at hnp
        rw [hstrip, hs, List.filter_append]
        have h1 : t.reverse.filter (· ≠ '%') = t.reverse := by
          rw [List.filter_eq_self]
          intro a ha
          simp only [ne_eq, decide_eq_true_eq]
          exact fun heq => hnp (heq ▸ ha)
        rw [h1]
        simp
      · have hstrip : stripTrailingPct s = s := by
          simp only [stripTrailingPct, hr, if_neg hc]
        rw [hstrip] at hnp
        rw [hstrip, List.filter_eq_self]
        intro a ha
        simp only [ne_eq, decide_eq_true_eq]
        exact fun heq => hnp (heq ▸ ha)

/-- Python `round` is the identity on integers. -/
theorem roundHalfEven_intCast (n : ℤ) : roundHalfEven (n : ℚ) = n := by
  rw [roundHalfEven, Int.floor_intCast]
  rw [if_pos]
  rw [sub_self]
  norm_num

/-- Python `round(·, 1)` is the identity on integer tenths. -/
theorem pyRound1_tenths (n : ℤ) : pyRound1 ((n : ℚ) / 10) = (n : ℚ) / 10 := by
  rw [pyRound1]
  have h10 : ((n : ℚ) / 10) * 10 = (n : ℚ) := by field_simp
  rw [h10, roundHalfEven_intCast]

/-- **C4**: on a text token, the percent transform yields round-to-1-decimal
of the numeral obtained by stripping the trailing "%" and normalising the
decimal comma to a point — whenever that numeral parses, the code's
remove-every-"%" normalisation computes the same value; on a numeric token
it yields round-to-1-decimal of the value times 100; in particular the text
"12.5%" and the numeric fraction 1/8 both yield 12.5. -/
theorem parse_percent_spec :
    (∀ (s : List Char) (q : ℚ),
      parseFloat (mapComma (stripTrailingPct s)) = some q →
      parse_percent (.str s) = .ok (some (pyRound1 q)))
    ∧ (∀ q : ℚ, parse_percent (.num q) = .ok (some (pyRound1 (q * 100))))
    ∧ parse_percent (.str "12.5%".toList) = .ok (some ((25 : ℚ) / 2))
    ∧ parse_percent (.num (1 / 8)) = .ok (some ((25 : ℚ) / 2)) := by
  refine ⟨?_, fun q => rfl, ?_, ?_⟩
  · intro s q h
    have hnp : '%' ∉ stripTrailingPct s := by
      intro hmem
      apply parseFloat_no_pct h
      rw [mapComma]
      exact List.mem_map.mpr ⟨'%', hmem, by decide⟩
    have hfilter := filter_pct_of_strip hnp
    have harg : (s.filter (· ≠ '%')).map (fun c => if c = ',' then '.' else c)
        = mapComma (stripTrailingPct s) := by
      rw [hfilter]; rfl
    rw [parse_percent, harg, h]
  · have h1 : parse_percent (.str "12.5%".toList)
        = .ok (some (pyRound1 ((natVal ['1', '2'] : ℚ) + fracVal ['5']))) :=
      rfl
    rw [h1]
    have h2 : ((natVal ['1', '2'] : ℕ) : ℚ) + fracVal ['5']
        = ((125 : ℤ) : ℚ) / 10 := by
      have ha : natVal ['1', '2'] = 12 := by decide
      have hb : natVal ['5'] = 5 := by decide
      rw [ha, fracVal, hb]
      norm_num
    rw [h2, pyRound1_tenths]
    norm_num
  · have h1 : parse_percent (.num (1 / 8))
        = .ok (some (pyRound1 ((1 : ℚ) / 8 * 100))) := rfl
    rw [h1]
    have h2 : (1 : ℚ) / 8 * 100 = ((125 : ℤ) : ℚ) / 10 := by norm_num
    rw [h2, pyRound1_tenths]
    norm_num

/-- Witness for C4 at the concrete text "3,5%": stripping the trailing "%"
and normalising the comma parses, and the transform returns its 1-decimal
rounding. -/
theorem parse_percent_spec_witness :
    parse_percent (.str "3,5%".toList)
      = .ok (some (pyRound1 ((natVal ['3'] : ℚ) + fracVal ['5']))) :=
  parse_percent_spec.1 ("3,5%".toList) ((natVal ['3'] : ℚ) + fracVal ['5']) rfl

/-! ## C8 — export rendering -/

/-- Python `v or 0` is the identity on numbers. -/
theorem pyOr0_eq (x : ℚ) : pyOr0 x = x := by
  by_cases h : x = 0 <;> simp [pyOr0, h]

/-- The export cell list, indexed: percentage positions hold `v/100` with
the sign-selected format, magnitude positions hold `v or 0` with the number
format. -/
theorem export_cells_getElem (vals : List ℚ) (j : ℕ) (x : ℚ)
    (hx : vals[j]? = some x) :
    (export_cells vals)[j]? = some (if j = 0 ∨ 3 ≤ j then
        (x / 100, if 0 ≤ x then XFmt.pct_g else XFmt.pct_r)
      else (pyOr0 x, XFmt.num)) := by
  rw [export_cells, List.getElem?_map, List.getElem?_enum, hx]
  rfl

/-- **C8**: each export row writes the label stripped of its indentation
marker with the indented style exactly when the marker is present (bold
otherwise); each percentage cell (value indices 0 and 3–7) is the value
divided by 100 with the green format iff the value is non-negative and the
red format iff it is negative; each magnitude cell (indices 1, 2) is the
plain number `v or 0` — the identity on numeric values, `0` for a falsy
one. -/
theorem export_row_spec (r : String × List ℚ) :
    ((export_row r).1.1 = pyStrip r.1)
    ∧ ((export_row r).1.2 = XFmt.ind ↔ hasIndentMarker r.1 = true)
    ∧ ((export_row r).1.2 = XFmt.bold ↔ ¬ hasIndentMarker r.1 = true)
    ∧ (∀ (j : ℕ) (x : ℚ), r.2[j]? = some x → (j = 0 ∨ 3 ≤ j) →
        (export_cells r.2)[j]? = some (x / 100,
            if 0 ≤ x then XFmt.pct_g else XFmt.pct_r)
        ∧ ((if 0 ≤ x then XFmt.pct_g else XFmt.pct_r) = XFmt.pct_g ↔ 0 ≤ x)
        ∧ ((if 0 ≤ x then XFmt.pct_g else XFmt.pct_r) = XFmt.pct_r ↔ x < 0))
    ∧ (∀ (j : ℕ) (x : ℚ), r.2[j]? = some x → (j = 1 ∨ j = 2) →
        (export_cells r.2)[j]? = some (pyOr0 x, XFmt.num) ∧ pyOr0 x = x) := by
  refine ⟨rfl, ?_, ?_, ?_, ?_⟩
  · by_cases hm : hasIndentMarker r.1 <;> simp [export_row, hm]
  · by_cases hm : hasIndentMarker r.1 <;> simp [export_row, hm]
  · intro j x hx hj
    rw [export_cells_getElem r.2 j x hx, if_pos hj]
    refine ⟨rfl, ?_, ?_⟩
    · by_cases h0 : 0 ≤ x <;> simp [h0]
    · by_cases h0 : 0 ≤ x
      · simp [h0, not_lt.mpr h0]
      · simp [h0, not_le.mp h0]
  · intro j x hx hj
    have hnot : ¬ (j = 0 ∨ 3 ≤ j) := by rcases hj with rfl | rfl <;> omega
    rw [export_cells_getElem r.2 j x hx, if_neg hnot]
    exact ⟨rfl, pyOr0_eq x⟩

/-- Witness for C8 at a concrete row: negative percentage red, non-negative
percentage green, magnitude plain, label stripped and indented. -/
theorem export_row_spec_witness :
    (export_cells [(-3 : ℚ), 7, 0, 4])[0]?
      = some ((-3 : ℚ) / 100, XFmt.pct_r)
    ∧ (export_cells [(-3 : ℚ), 7, 0, 4])[3]?
      = some ((4 : ℚ) / 100, XFmt.pct_g)
    ∧ (export_cells [(-3 : ℚ), 7, 0, 4])[1]?
      = some ((7 : ℚ), XFmt.num)
    ∧ (export_row ("    A", [(-3 : ℚ), 7, 0, 4])).1.1 = "A"
    ∧ (export_row ("    A", [(-3 : ℚ), 7, 0, 4])).1.2 = XFmt.ind := by
  obtain ⟨h1, h2, h3, h4, h5⟩ :=
    export_row_spec ("    A", [(-3 : ℚ), 7, 0, 4])
  refine ⟨?_, ?_, ?_, ?_, h2.mpr (by decide)⟩
  · have h := (h4 0 (-3) rfl (Or.inl rfl)).1
    rw [if_neg (by norm_num : ¬ (0 : ℚ) ≤ -3)] at h
    exact h
  · have h := (h4 3 4 rfl (Or.inr (by norm_num))).1
    rw [if_pos (by norm_num : (0 : ℚ) ≤ 4)] at h
    exact h
  · obtain ⟨ha, hb⟩ := h5 1 7 rfl (Or.inl rfl)
    rw [hb] at ha
    exact ha
  · rw [h1]
    decide

/-! ## C7 — on-screen percent formatting -/

theorem digitChar_isDigit {d : ℕ} (h : d < 10) :
    (Nat.digitChar d).isDigit = true := by
  interval_cases d <;> decide

theorem digitVal_digitChar {d : ℕ} (h : d < 10) :
    digitVal (Nat.digitChar d) = d := by
  interval_cases d <;> decide

theorem natDigits_ne_nil (n : ℕ) : natDigits n ≠ [] := by
  rw [natDigits]
  split <;> simp

theorem natDigits_digits (n : ℕ) : ∀ c ∈ natDigits n, c.isDigit = true := by
  induction n using Nat.strong_induction_on with
  | _ n ih =>
      intro c hc
      rw [natDigits] at hc
      split at hc
      · next h =>
          rcases List.mem_singleton.mp hc with rfl
          exact digitChar_isDigit h
      · next h =>
          rcases List.mem_append.mp hc with hm | hm
          · exact ih (n / 10) (Nat.div_lt_self (by omega) (by norm_num)) c hm
          · rcases List.mem_singleton.mp hm with rfl
            exact digitChar_isDigit (Nat.mod_lt _ (by norm_num))

theorem natVal_append_digit (l : List Char) (c : Char) :
    natVal (l ++ [c]) = 10 * natVal l + digitVal c := by
  rw [natVal, List.foldl_append]
  rfl

theorem natVal_natDigits (n : ℕ) : natVal (natDigits n) = n := by
  induction n using Nat.strong_induction_on with
  | _ n ih =>
      rw [natDigits]
      split
      · next h =>
          show 10 * 0 + digitVal (Nat.digitChar n) = n
          rw [digitVal_digitChar h]
          omega
      · next h =>
          rw [natVal_append_digit,
            ih (n / 10) (Nat.div_lt_self (by omega) (by norm_num)),
            digitVal_digitChar (Nat.mod_lt _ (by norm_num))]
          omega

theorem takeWhile_append_not {p : Char → Bool} {xs : List Char} {y : Char}
    {ys : List Char} (hxs : ∀ c ∈ xs, p c = true) (hy : p y = false) :
    (xs ++ y :: ys).takeWhile p = xs
    ∧ (xs ++ y :: ys).dropWhile p = y :: ys := by
  induction xs with
  | nil => simp [List.takeWhile_cons, List.dropWhile_cons, hy]
  | cons a t ih =>
      have ha : p a = true := hxs a (List.mem_cons_self a t)
      have iht := ih (fun c hc => hxs c (List.mem_cons_of_mem a hc))
      simp [List.takeWhile_cons, List.dropWhile_cons, ha, iht.1, iht.2]

/-- `parseUnsigned` on digits, a point and one digit. -/
theorem parseUnsigned_digits_dot {ds : List Char} {d : Char}
    (hne : ds ≠ []) (hds : ∀ c ∈ ds, c.isDigit = true)
    (hd : d.isDigit = true) :
    parseUnsigned (ds ++ '.' :: [d])
      = some ((natVal ds : ℚ) + (digitVal d : ℚ) / 10) := by
  have hsp := @takeWhile_append_not (·.isDigit) ds '.' [d] hds
    (by decide : (('.' : Char).isDigit) = false)
  have hfrac : fracVal [d] = (digitVal d : ℚ) / 10 := by
    rw [fracVal]
    show ((natVal [d] : ℚ)) / 10 ^ (1 : ℕ) = _
    have hnv : natVal [d] = digitVal d := by
      show 10 * 0 + digitVal d = digitVal d
      omega
    rw [hnv]
    norm_num
  rw [parseUnsigned, List.span_eq_take_drop, hsp.1, hsp.2]
  split
  · next x ds' heq =>
      rw [Prod.mk.injEq] at heq
      exact absurd heq.2 (by simp)
  · next x ds' rest' heq =>
      rw [Prod.mk.injEq] at heq
      obtain ⟨h1, h2⟩ := heq
      rw [List.cons.injEq] at h2
      subst h1
      rw [← h2.2]
      split
      · rw [hfrac]
      · next hguard =>
          exfalso
          apply hguard
          rw [List.all_cons, List.all_nil, Bool.and_true, hd]
          simp [List.isEmpty_iff, hne]
  · next x h1 h2 =>
      exact absurd rfl (h2 ds [d])

theorem roundHalfEven_nonneg {q : ℚ} (h : 0 ≤ q) : 0 ≤ roundHalfEven q := by
  have hf : (0 : ℤ) ≤ ⌊q⌋ := Int.floor_nonneg.mpr h
  rw [roundHalfEven]
  split
  · exact hf
  · split
    · omega
    · split
      · exact hf
      · omega

theorem roundHalfEven_nonpos {q : ℚ} (h : q < 0) : roundHalfEven q ≤ 0 := by
  have hf : ⌊q⌋ < 0 := by
    have h1 : (⌊q⌋ : ℚ) < 0 := lt_of_le_of_lt (Int.floor_le q) h
    exact_mod_cast h1
  rw [roundHalfEven]
  split
  · omega
  · split
    · omega
    · split
      · omega
      · omega

theorem nat_div_mod_tenths (m : ℕ) :
    ((m / 10 : ℕ) : ℚ) + ((m % 10 : ℕ) : ℚ) / 10 = (m : ℚ) / 10 := by
  have h := Nat.div_add_mod m 10
  field_simp
  push_cast
  nlinarith [(by exact_mod_cast congrArg (Nat.cast : ℕ → ℚ) h :
    (10 : ℚ) * ((m / 10 : ℕ) : ℚ) + ((m % 10 : ℕ) : ℚ) = (m : ℚ))]

/-- **C7**: `fmt_pct` renders `None`/missing as "0%", and every present
value as a decimal numeral with exactly one digit after the point followed
by "%"; parsing that numeral back gives exactly the 1-decimal rounding of
the value. -/
theorem fmt_pct_spec :
    fmt_pct none = "0%"
    ∧ (∀ (r : String × List ℚ) (j : ℕ) (x : ℚ),
        r.2[j]? = some x → (j = 0 ∨ 3 ≤ j) →
        (display_row r)[j + 1]? = some (Cell.strC (fmt_pct (some x))))
    ∧ ∀ q : ℚ, ∃ (pre : List Char) (d : Char),
        d.isDigit = true
        ∧ (fmt_pct (some q)).toList = pre ++ ['.', d, '%']
        ∧ parseFloat (pre ++ ['.', d]) = some (pyRound1 q) := by
  refine ⟨rfl, ?_, fun q => ?_⟩
  · intro r j x hx hj
    rw [display_row, List.getElem?_cons_succ, List.getElem?_map,
      List.getElem?_enum, hx]
    simp [hj]
  refine ⟨(if q < 0 then ['-'] else [])
      ++ natDigits ((roundHalfEven (q * 10)).natAbs / 10),
    Nat.digitChar ((roundHalfEven (q * 10)).natAbs % 10),
    digitChar_isDigit (Nat.mod_lt _ (by norm_num)), ?_, ?_⟩
  · have hdata : (fmt_pct (some q)).toList = fmtFixed1 q ++ ['%'] := by
      show (String.mk (fmtFixed1 q) ++ "%").data = _
      rw [String.data_append]
    rw [hdata, fmtFixed1]
    simp [List.append_assoc]
  · by_cases hq : q < 0
    · have hn0 : roundHalfEven (q * 10) ≤ 0 :=
        roundHalfEven_nonpos (mul_neg_of_neg_of_pos hq (by norm_num))
      rw [if_pos hq]
      have hshape : (['-'] ++ natDigits ((roundHalfEven (q * 10)).natAbs / 10))
            ++ ['.', Nat.digitChar ((roundHalfEven (q * 10)).natAbs % 10)]
          = '-' :: (natDigits ((roundHalfEven (q * 10)).natAbs / 10)
            ++ '.' :: [Nat.digitChar ((roundHalfEven (q * 10)).natAbs % 10)]) := by
        simp
      rw [hshape, parseFloat, if_pos rfl,
        parseUnsigned_digits_dot (natDigits_ne_nil _) (natDigits_digits _)
          (digitChar_isDigit (Nat.mod_lt _ (by norm_num))),
        Option.map_some', natVal_natDigits,
        digitVal_digitChar (Nat.mod_lt _ (by norm_num))]
      congr 1
      rw [nat_div_mod_tenths, pyRound1]
      have hcast : (((roundHalfEven (q * 10)).natAbs : ℕ) : ℚ)
          = -((roundHalfEven (q * 10) : ℤ) : ℚ) := by
        rw [Int.cast_natAbs, abs_of_nonpos hn0, Int.cast_neg]
      rw [hcast]
      ring
    · have hn0 : 0 ≤ roundHalfEven (q * 10) :=
        roundHalfEven_nonneg (mul_nonneg (not_lt.mp hq) (by norm_num))
      rw [if_neg hq, List.nil_append]
      obtain ⟨c0, t0, hnd⟩ : ∃ c0 t0,
          natDigits ((roundHalfEven (q * 10)).natAbs / 10) = c0 :: t0 := by
        cases hh : natDigits ((roundHalfEven (q * 10)).natAbs / 10) with
        | nil => exact absurd hh (natDigits_ne_nil _)
        | cons a t => exact ⟨a, t, rfl⟩
      have hc0 : c0.isDigit = true :=
        natDigits_digits _ c0 (hnd ▸ List.mem_cons_self c0 t0)
      rw [hnd, List.cons_append, parseFloat,
        if_neg (fun hc => absurd (hc ▸ hc0) (by decide)),
        if_neg (fun hc => absurd (hc ▸ hc0) (by decide)),
        ← List.cons_append, ← hnd,
        parseUnsigned_digits_dot (natDigits_ne_nil _) (natDigits_digits _)
          (digitChar_isDigit (Nat.mod_lt _ (by norm_num))),
        natVal_natDigits, digitVal_digitChar (Nat.mod_lt _ (by norm_num))]
      congr 1
      rw [nat_div_mod_tenths, pyRound1]
      have hcast : (((roundHalfEven (q * 10)).natAbs : ℕ) : ℚ)
          = ((roundHalfEven (q * 10) : ℤ) : ℚ) := by
        rw [Int.cast_natAbs, abs_of_nonneg hn0]
      rw [hcast]

/-- Witness for the display conjunct of C7: the contribution column (value
index 0, display column 1) of a concrete row is rendered through
`fmt_pct`. -/
theorem fmt_pct_spec_witness :
    (display_row ("A", [(1 : ℚ), 2, 3, 4, 5, 6, 7, 8]))[1]?
      = some (Cell.strC (fmt_pct (some 1))) :=
  fmt_pct_spec.2.1 ("A", [(1 : ℚ), 2, 3, 4, 5, 6, 7, 8]) 0 1 rfl (Or.inl rfl)

/-- Witness for the amended C3 theorem at a one-row master table: "b" is a
child of "A" in the hierarchy because a master row relates them. -/
theorem hierarchy_membership_witness :
    ∃ r ∈ [("A", RawVal.str ['b'])], r.1 = "A" ∧ substChild r.2 = "b" := by
  have h := (hierarchy_membership [("A", RawVal.str ['b'])] "A").2 ["b"]
    (by decide) "b"
  exact h.mp (by decide)
